import Mathlib

/-!
Shallow embedding of the animeme repository's core (keyframes.py, templates.py,
gif.py, tracker.py, and the non-GUI logic of animator.py), together with proofs
about the embedded operations.

Machine integers are modelled as `Int`/`Nat` (Python ints are unbounded), the
exact arithmetic of `np.interp` is modelled over `Rat`, and fallible Python
code (statements that raise `TypeError` / failed `assert`s) returns `Option`.
-/

/-! ## keyframes.py: `TextAnimationKeyframe` -/

/-- One sparse animation keyframe (`TextAnimationKeyframe` in keyframes.py):
`frame_ind` plus per-field optional x, y (the `position` pair) and `text_size`.
Python stores `self.x`, `self.y`, `self.text_size`; `position` is a derived
property returning the tuple `(x, y)`. -/
structure TextAnimationKeyframe where
  frame_ind : ℤ
  x : Option ℤ
  y : Option ℤ
  text_size : Option ℤ
deriving DecidableEq, Repr

/-- `TextAnimationKeyframe.__init__`: executes `self.x, self.y = position`.
When `position` is `None`, that unpacking raises
`TypeError: cannot unpack non-iterable NoneType object`, modelled as `none`;
otherwise both coordinates are set from the pair. -/
def TextAnimationKeyframe.init (frame_ind : ℤ) (position : Option (ℤ × ℤ))
    (text_size : Option ℤ) : Option TextAnimationKeyframe :=
  match position with
  | none => none
  | some p => some ⟨frame_ind, some p.1, some p.2, text_size⟩

/-- The `position` property: the tuple `(self.x, self.y)`. -/
def TextAnimationKeyframe.position (k : TextAnimationKeyframe) : Option ℤ × Option ℤ :=
  (k.x, k.y)

/-- `TextAnimationKeyframe.update_keyframe(self, new_keyframe)`.
The Python guard `if new_keyframe.position is not None` always succeeds,
because the `position` property returns the tuple `(x, y)` (a tuple object is
never `None`), so the position coordinates are always overwritten; `text_size`
is overwritten only when the incoming one is not `None`. -/
def TextAnimationKeyframe.update_keyframe (old new : TextAnimationKeyframe) :
    TextAnimationKeyframe :=
  { old with
    x := new.x
    y := new.y
    text_size := match new.text_size with
      | some s => some s
      | none => old.text_size }

/-! ## keyframes.py: `KeyframeCollection` -/

/-- `KeyframeCollection.insert_keyframe`: `bisect.bisect_left` locates the
first entry whose `frame_ind` is not smaller than the new keyframe's (the
collection is kept sorted by construction, where binary search and this linear
scan agree); an entry with equal `frame_ind` is merged in place via
`update_keyframe`, otherwise the keyframe is inserted at that position. -/
def insert_keyframe (kfs : List TextAnimationKeyframe) (k : TextAnimationKeyframe) :
    List TextAnimationKeyframe :=
  match kfs with
  | [] => [k]
  | k' :: rest =>
    if k'.frame_ind < k.frame_ind then k' :: insert_keyframe rest k
    else if k.frame_ind = k'.frame_ind then k'.update_keyframe k :: rest
    else k :: k' :: rest

/-- The `keyframes_indices` property: the list of stored frame indices. -/
def keyframes_indices (kfs : List TextAnimationKeyframe) : List ℤ :=
  kfs.map (·.frame_ind)

/-- The sortedness invariant of a keyframe collection: frame indices strictly
increase (this is exactly the state reachable through `insert_keyframe`). -/
def SortedKeyframes (kfs : List TextAnimationKeyframe) : Prop :=
  List.Pairwise (fun a b => a.frame_ind < b.frame_ind) kfs

instance : DecidablePred SortedKeyframes := fun kfs =>
  inferInstanceAs (Decidable (List.Pairwise _ kfs))

/-- The scenario of the spec's merge property: first a keyframe
`(5, position=(10,10), size=None)` is built and inserted (this succeeds), then
the size-only keyframe `(5, position=None, size=30)` must be built — but
`TextAnimationKeyframe.__init__` crashes on `position=None`. -/
def mergeScenarioSecondKeyframe : Option TextAnimationKeyframe :=
  TextAnimationKeyframe.init 5 none (some 30)

/-! ## keyframes.py: `TextAnimationKeyframeCollection.interpolate` -/

/-- Python's `int(...)` conversion truncates toward zero. On an exact rational
this is truncating division of numerator by denominator. -/
def pyInt (q : ℚ) : ℤ :=
  q.num.tdiv q.den

/-- `np.interp(x, xp, fp)` on a strictly increasing sample list `pts`
(zipped `xp`/`fp` pairs), under exact rational arithmetic: values are clamped
to the boundary samples outside the sampled range and linearly interpolated on
the bracketing interval inside it. `np.interp` on an empty `xp` raises; every
call site guards against the empty list, so the `[]` value is never relied on. -/
def npInterp (x : ℚ) : List (ℚ × ℚ) → ℚ
  | [] => 0
  | [p] => p.2
  | p :: q :: rest =>
    if x ≤ p.1 then p.2
    else if x < q.1 then p.2 + (q.2 - p.2) * (x - p.1) / (q.1 - p.1)
    else npInterp x (q :: rest)

/-- The `(keyframe.frame_ind, value)` pairs of the keyframes that define the
field selected by `f` — the list comprehensions
`[(keyframe.frame_ind, keyframe.x) for keyframe in self if keyframe.x is not None]`
(and the analogous ones for `y` and `text_size`). -/
def fieldPts (f : TextAnimationKeyframe → Option ℤ)
    (kfs : List TextAnimationKeyframe) : List (ℚ × ℚ) :=
  kfs.filterMap fun k =>
    match f k with
    | none => none
    | some v => some ((k.frame_ind : ℚ), (v : ℚ))

/-- `TextAnimationKeyframeCollection.DEFAULT_POSITION`. -/
def DEFAULT_POSITION : ℤ × ℤ := (20, 20)

/-- `TextAnimationKeyframeCollection.DEFAULT_TEXT_SIZE`. -/
def DEFAULT_TEXT_SIZE : ℤ := 50

/-- `TextAnimationKeyframeCollection.interpolate(frame_ind)`. Mirrors the
source line by line: gather the three per-field sample lists;
`assert len(all_position_x) == len(all_position_y)` (failure modelled as
`none`); both position coordinates take the defaults when `all_position_x` is
empty (the source tests only the x list; the assert makes the two tests
agree), otherwise `int(np.interp(frame_ind, ...))`; `text_size` likewise from
its own list. -/
def interpolate (kfs : List TextAnimationKeyframe) (frame_ind : ℤ) :
    Option TextAnimationKeyframe :=
  let all_position_x := fieldPts (·.x) kfs
  let all_position_y := fieldPts (·.y) kfs
  let all_text_size := fieldPts (·.text_size) kfs
  if all_position_x.length = all_position_y.length then
    let interp_x : ℤ :=
      if all_position_x ≠ [] then pyInt (npInterp (frame_ind : ℚ) all_position_x)
      else DEFAULT_POSITION.1
    let interp_y : ℤ :=
      if all_position_x ≠ [] then pyInt (npInterp (frame_ind : ℚ) all_position_y)
      else DEFAULT_POSITION.2
    let interp_text_size : ℤ :=
      if all_text_size ≠ [] then pyInt (npInterp (frame_ind : ℚ) all_text_size)
      else DEFAULT_TEXT_SIZE
    some ⟨frame_ind, some interp_x, some interp_y, some interp_text_size⟩
  else
    none

/-! ## keyframes.py: serialization -/

/-- The dict produced by `TextAnimationKeyframe.serialize`:
`dict(frame_ind=..., position=..., text_size=...)`. -/
structure SerializedKeyframe where
  frame_ind : ℤ
  position : Option ℤ × Option ℤ
  text_size : Option ℤ
deriving DecidableEq, Repr

/-- `TextAnimationKeyframe.serialize`. -/
def TextAnimationKeyframe.serialize (k : TextAnimationKeyframe) : SerializedKeyframe :=
  ⟨k.frame_ind, k.position, k.text_size⟩

/-- `TextAnimationKeyframe.deserialize`: calls the constructor with the stored
`position` pair. The stored position is always a pair (the serializer wrote the
tuple `(x, y)`), so the constructor's tuple unpacking succeeds. -/
def TextAnimationKeyframe.deserialize (d : SerializedKeyframe) : TextAnimationKeyframe :=
  ⟨d.frame_ind, d.position.1, d.position.2, d.text_size⟩

/-- `TextAnimationKeyframeCollection.serialize`. -/
def serializeCollection (kfs : List TextAnimationKeyframe) : List SerializedKeyframe :=
  kfs.map TextAnimationKeyframe.serialize

/-- `TextAnimationKeyframeCollection.deserialize`: start from an empty
collection and `insert_keyframe` every deserialized keyframe in order. -/
def deserializeCollection (l : List SerializedKeyframe) : List TextAnimationKeyframe :=
  l.foldl (fun acc d => insert_keyframe acc (TextAnimationKeyframe.deserialize d)) []

/-! ## templates.py: `TextAnimationTemplate` -/

/-- One text layer (`TextAnimationTemplate` in templates.py): stable id, a
keyframe collection, default render content (`text_value`, set to the id by
the constructor) and the style attributes. `background_color` is carried
verbatim through serialization; its carrier is modelled as an optional color
string. -/
structure TextAnimationTemplate where
  id : String
  keyframes : List TextAnimationKeyframe
  text_value : String
  font_path : String
  text_color : String
  background_color : Option String
  stroke_width : ℤ
  stroke_color : String
deriving DecidableEq, Repr

/-- `TextAnimationTemplate.__init__` with default `initial_position` and
`initial_text_size` (both `None`): the keyframe-insertion branch is skipped, so
the collection starts empty, and the style fields take the literal defaults
from the source. -/
def TextAnimationTemplate.mk0 (template_id : String) : TextAnimationTemplate :=
  { id := template_id
    keyframes := []
    text_value := template_id
    font_path := "Montserrat-Regular.ttf"
    text_color := "#FFF"
    background_color := none
    stroke_width := 2
    stroke_color := "#000" }

/-- The dict produced by `TextAnimationTemplate.serialize` (note: `text_value`
is not serialized). -/
structure SerializedTemplate where
  id : String
  keyframes : List SerializedKeyframe
  font_path : String
  text_color : String
  background_color : Option String
  stroke_width : ℤ
  stroke_color : String
deriving DecidableEq, Repr

/-- `TextAnimationTemplate.serialize`. -/
def TextAnimationTemplate.serialize (t : TextAnimationTemplate) : SerializedTemplate :=
  { id := t.id
    keyframes := serializeCollection t.keyframes
    font_path := t.font_path
    text_color := t.text_color
    background_color := t.background_color
    stroke_width := t.stroke_width
    stroke_color := t.stroke_color }

/-- `TextAnimationTemplate.deserialize`: builds
`TextAnimationTemplate(template_id=d['id'])` (so `text_value` becomes the id)
and then overwrites the keyframe collection and every style field from the
dict. -/
def TextAnimationTemplate.deserialize (d : SerializedTemplate) : TextAnimationTemplate :=
  { TextAnimationTemplate.mk0 d.id with
    keyframes := deserializeCollection d.keyframes
    font_path := d.font_path
    text_color := d.text_color
    background_color := d.background_color
    stroke_width := d.stroke_width
    stroke_color := d.stroke_color }

/-! ## templates.py: `MemeAnimationTemplate` (the Layer Set) -/

/-- Insertion into a Python `dict` keyed by `template.id`
(`self.templates_dict[template.id] = template`): if the key is present the
value is replaced in place (keeping the key's position), otherwise the entry
is appended. The dict is modelled as its ordered list of values; each value
carries its key as `.id`. -/
def dictInsert (layers : List TextAnimationTemplate) (t : TextAnimationTemplate) :
    List TextAnimationTemplate :=
  match layers with
  | [] => [t]
  | t' :: rest => if t'.id = t.id then t :: rest else t' :: dictInsert rest t

/-- `MemeAnimationTemplate.__init__(text_templates)`: the dict comprehension
`{t.id: t for t in text_templates}` inserts the templates one by one. -/
def MemeAnimationTemplate.ofList (text_templates : List TextAnimationTemplate) :
    List TextAnimationTemplate :=
  text_templates.foldl dictInsert []

/-- `MemeAnimationTemplate.add_template`. -/
def add_template (layers : List TextAnimationTemplate) (t : TextAnimationTemplate) :
    List TextAnimationTemplate :=
  dictInsert layers t

/-- `MemeAnimationTemplate.remove_template`: `del self.templates_dict[template.id]`.
The caller always passes a stored template, so the key is present; deletion
removes that entry (dict keys are unique, so at most one). -/
def remove_template (layers : List TextAnimationTemplate) (template_id : String) :
    List TextAnimationTemplate :=
  layers.filter fun t => ¬ t.id = template_id

/-- `MemeAnimationTemplate.serialize`: serialize the templates in dict order. -/
def MemeAnimationTemplate.serialize (layers : List TextAnimationTemplate) :
    List SerializedTemplate :=
  layers.map TextAnimationTemplate.serialize

/-- `MemeAnimationTemplate.deserialize`: deserialize each record and rebuild
the dict from the resulting list. -/
def MemeAnimationTemplate.deserialize (l : List SerializedTemplate) :
    List TextAnimationTemplate :=
  MemeAnimationTemplate.ofList (l.map TextAnimationTemplate.deserialize)

/-! ## templates.py: spiral traversal -/

/-- The George Sakkis `roundrobin` recipe specialised to the two iterators
`spiral` passes it: take the next element of the first iterator, then continue
round-robin with the second iterator first; once an iterator is exhausted the
other is drained alone (the `cycle(islice(nexts, num_active))` step). -/
def roundrobin : List ℕ → List ℕ → List ℕ
  | [], ys => ys
  | x :: xs, ys => x :: roundrobin ys xs
termination_by xs ys => xs.length + ys.length
decreasing_by simp; omega

/-- `MemeAnimationTemplate.spiral(start_ind, length)`:
`roundrobin(range(start_ind, length), range(start_ind - 1, -1, -1))`. -/
def spiral (start_ind length : ℕ) : List ℕ :=
  roundrobin (List.range' start_ind (length - start_ind)) (List.range start_ind).reverse

/-- `MemeAnimationTemplate.render_spiral` renders the frames of the sequence
in exactly the order produced by `spiral` (each visited frame is re-rendered
in place for every layer). The visit order is the observable modelled here. -/
def render_spiral_order (sequence_length current_ind : ℕ) : List ℕ :=
  spiral current_ind sequence_length

/-- Spec-side description of the traversal (for comparison with the source's
`roundrobin`): a strict one-for-one interleave that takes its first element
from the forward list, its second from the backward list, and so on, draining
the leftover list once the other is exhausted. -/
def interleaveSpec : List ℕ → List ℕ → List ℕ
  | [], ys => ys
  | x :: xs, [] => x :: xs
  | x :: xs, y :: ys => x :: y :: interleaveSpec xs ys

/-! ## gif.py: `GifFrame` and `GifSequence` -/

/-- A raster frame: RGB rows. -/
abbrev Raster := List (List (ℕ × ℕ × ℕ))

/-- `GifFrame`: a pixel array plus a display duration (milliseconds). -/
structure GifFrame where
  _image : Raster
  duration : ℕ
deriving DecidableEq, Repr

/-- `GifFrame.from_array`. -/
def GifFrame.from_array (array : Raster) (duration : ℕ) : GifFrame :=
  ⟨array, duration⟩

/-- `GifSequence`: parallel arrays of frame rasters and durations. -/
structure GifSequence where
  _frames_array : List Raster
  _durations_array : List ℕ
deriving DecidableEq, Repr

/-- `GifSequence.from_frames`: stacks the frame arrays and durations into the
two parallel arrays. `np.stack` on an empty frame list raises
`ValueError: need at least one array to stack`, modelled as `none`. -/
def GifSequence.from_frames (frames : List GifFrame) : Option GifSequence :=
  match frames with
  | [] => none
  | _ => some ⟨frames.map (·._image), frames.map (·.duration)⟩

/-- `len(sequence)`: `len(self._frames_array)`. -/
def GifSequence.length (s : GifSequence) : ℕ :=
  s._frames_array.length

/-- The well-formedness invariant every constructor of the source maintains:
the two parallel arrays have the same length. -/
def GifSequence.WF (s : GifSequence) : Prop :=
  s._durations_array.length = s._frames_array.length

instance : DecidablePred GifSequence.WF := fun s =>
  inferInstanceAs (Decidable (_ = _))

/-- `GifSequence.__getitem__` with an `int` index:
`GifFrame.from_array(self._frames_array[item], self._durations_array[item])`.
Modelled totally with defaults; all call sites index in range (a Python
out-of-range index raises `IndexError`). -/
def GifSequence.getItemInt (s : GifSequence) (i : ℕ) : GifFrame :=
  GifFrame.from_array (s._frames_array.getD i []) (s._durations_array.getD i 0)

/-- `slice(a, b).indices(n)` for `0 ≤ a`, `0 ≤ b`, step 1: both bounds are
clamped into `[0, n]`, producing the index list `range(min a n, min b n)`. -/
def pySliceIndices (a b n : ℕ) : List ℕ :=
  List.range' (min a n) (min b n - min a n)

/-- `GifSequence.__getitem__` with the slice `a:b`:
`GifSequence.from_frames([self[i] for i in range(*slice.indices(len(self)))])`.
An empty slice propagates `from_frames`' `ValueError` (`none`). -/
def GifSequence.getItemSlice (s : GifSequence) (a b : ℕ) : Option GifSequence :=
  GifSequence.from_frames ((pySliceIndices a b s.length).map s.getItemInt)

/-- `GifSequence.__add__` on two sequences: a new sequence whose arrays are
the concatenations of the operands' arrays (`np.concatenate`); the operands
are left untouched. -/
def GifSequence.add (s other : GifSequence) : GifSequence :=
  ⟨s._frames_array ++ other._frames_array, s._durations_array ++ other._durations_array⟩

/-- `int(b)` on a Python bool. -/
def pyIntOfBool (b : Bool) : ℕ :=
  if b then 1 else 0

/-- The argument record handed to `imageio.mimsave` by `GifSequence.save`. -/
structure SaveCall where
  images : List Raster
  durations_in_seconds : List ℚ
  loop : ℕ
deriving DecidableEq

/-- `GifSequence.save(path, is_loop)`: passes the frames, the durations
divided by 1000, and `loop=int(not is_loop)` to `imageio.mimsave`. -/
def GifSequence.save (s : GifSequence) (is_loop : Bool) : SaveCall :=
  { images := s._frames_array
    durations_in_seconds := s._durations_array.map fun d => (d : ℚ) / 1000
    loop := pyIntOfBool (!is_loop) }

/-! ## tracker.py: `Tracker` -/

/-- `QtCore.QPoint`: an integer point; `QPoint()` is the origin. -/
structure QPoint where
  x : ℤ
  y : ℤ
deriving DecidableEq, Repr

/-- Componentwise `QPoint` subtraction (Qt semantics). -/
def QPoint.sub (p q : QPoint) : QPoint :=
  ⟨p.x - q.x, p.y - q.y⟩

/-- The `Tracker` state of tracker.py: the two region corners and the failure
flag. The opaque `cv2.TrackerKCF` instance is external (its `update` result is
passed in as data, per the §6 collaborator contract
`update(frame) -> (ok, rect)`). -/
structure Tracker where
  begin_ : QPoint
  end_ : QPoint
  failed : Bool
deriving DecidableEq, Repr

/-- `Tracker.active`: `self.begin != QPoint() and self.end != QPoint()`. -/
def Tracker.active (t : Tracker) : Bool :=
  decide (t.begin_ ≠ ⟨0, 0⟩) && decide (t.end_ ≠ ⟨0, 0⟩)

/-- `Tracker.center`: `QPoint(int((end.x + begin.x) / 2), int((end.y + begin.y) / 2))`
(Python true division then `int`, i.e. truncation toward zero). -/
def Tracker.center (t : Tracker) : QPoint :=
  ⟨pyInt (((t.end_.x + t.begin_.x : ℤ) : ℚ) / 2),
   pyInt (((t.end_.y + t.begin_.y : ℤ) : ℚ) / 2)⟩

/-- `Tracker.update(frame)`, with the underlying `cv2` tracker's report
`(ok, new_bbox)` passed as data. On failure: set `failed`, clear both corners
and return the empty delta `QPoint()`. On success: move the corners to the new
bounding box and return the displacement of the center. Returns the new
tracker state together with the returned delta. -/
def Tracker.update (t : Tracker) (ok : Bool) (new_bbox : ℤ × ℤ × ℤ × ℤ) :
    Tracker × QPoint :=
  if !ok then
    ({ t with failed := true, begin_ := ⟨0, 0⟩, end_ := ⟨0, 0⟩ }, ⟨0, 0⟩)
  else
    let (bx, by2, bw, bh) := new_bbox
    let t' := { t with begin_ := ⟨bx, by2⟩, end_ := ⟨bx + bw, by2 + bh⟩ }
    (t', t'.center.sub t.center)

/-! ## animator.py: layer add/delete operations of `MainWindow` -/

/-- The non-GUI state these operations act on: the Layer Set
(`self.meme_template`, as its ordered dict of layers) and the id of
`self.selected_text_template`. -/
structure EditorState where
  layers : List TextAnimationTemplate
  selected : String
deriving DecidableEq, Repr

/-- The id of the first layer (`self.meme_template.templates_list[0].id`);
callers guarantee nonemptiness. -/
def firstId (layers : List TextAnimationTemplate) : String :=
  match layers with
  | [] => ""
  | t :: _ => t.id

/-- `MainWindow.on_click_add_text_template`: build the id
`f"Text {1 + len(self.meme_template.templates_list)}"`, add a fresh default
template under that id and select it. -/
def on_click_add_text_template (s : EditorState) : EditorState :=
  let initial_template_id := "Text " ++ Nat.repr (1 + s.layers.length)
  { layers := add_template s.layers (TextAnimationTemplate.mk0 initial_template_id)
    selected := initial_template_id }

/-- `MainWindow.on_click_delete_current_text_template`: only when more than
one layer exists, remove the selected layer and select the first remaining
one. -/
def on_click_delete_current_text_template (s : EditorState) : EditorState :=
  if 1 < s.layers.length then
    let layers' := remove_template s.layers s.selected
    { layers := layers', selected := firstId layers' }
  else
    s

/-- `TemplateSelectionPanel.on_combo_change` /
`MainWindow.change_selected_text_template`: select an existing layer by id. -/
def change_selected_text_template (s : EditorState) (template_id : String) : EditorState :=
  { s with selected := template_id }

/-- The editor states reachable from a single-layer start state through the
add / delete / select operations wired to the UI. -/
inductive ReachableEditorState : EditorState → Prop
  | init (t : TextAnimationTemplate) : ReachableEditorState ⟨[t], t.id⟩
  | add {s} : ReachableEditorState s →
      ReachableEditorState (on_click_add_text_template s)
  | delete {s} : ReachableEditorState s →
      ReachableEditorState (on_click_delete_current_text_template s)
  | select {s} (template_id : String)
      (h : template_id ∈ s.layers.map (·.id)) : ReachableEditorState s →
      ReachableEditorState (change_selected_text_template s template_id)

/-! ## animator.py: `TrackerPropertiesPanel.track_frame` -/

/-- Modelled from the spec: `get(frame_index)` of §4.1, the exact-match lookup
`KeyframeCollection.get_keyframe` that animator.py calls but keyframes.py (as
shipped under src/) does not define. It fails when no entry exists at the
index. -/
def get_keyframe (kfs : List TextAnimationKeyframe) (frame_ind : ℤ) :
    Option TextAnimationKeyframe :=
  kfs.find? fun k => k.frame_ind = frame_ind

/-- Modelled from the spec: the `keyframes_frames_indices` property that
animator.py reads but keyframes.py (as shipped under src/) does not define —
the list of stored frame indices, as `keyframes_indices` computes. -/
def keyframes_frames_indices (kfs : List TextAnimationKeyframe) : List ℤ :=
  keyframes_indices kfs

/-- The state `track_frame` acts on: the selected layer's keyframe collection
and tracker, the current frame index and the sequence length. -/
structure TrackState where
  keyframes : List TextAnimationKeyframe
  tracker : Tracker
  current_frame_index : ℤ
  sequence_length : ℕ
deriving DecidableEq, Repr

/-- `TrackerPropertiesPanel.track_frame(frame_diff)`, with the underlying
tracker's report `(ok, new_bbox)` passed as data. Early returns (inactive
tracker, out-of-bounds target frame) leave the state unchanged. Otherwise:
look up (or interpolate) the keyframe at the current frame, run
`tracker.update` to obtain the delta, insert a keyframe at the target frame at
the old position plus the delta, and move the slider (the current frame index)
to the target frame. `none` models the `TypeError` paths (an interpolation
assert failure, or a reference keyframe whose coordinates are `None`). -/
def track_frame (st : TrackState) (frame_diff : ℤ) (ok : Bool)
    (new_bbox : ℤ × ℤ × ℤ × ℤ) : Option TrackState :=
  if st.tracker.active = false then some st
  else
    let frame_num := st.current_frame_index
    let new_frame_num := frame_num + frame_diff
    if new_frame_num < 0 ∨ (st.sequence_length : ℤ) - 1 < new_frame_num then some st
    else
      let kf? :=
        if frame_num ∉ keyframes_frames_indices st.keyframes then
          interpolate st.keyframes frame_num
        else
          get_keyframe st.keyframes frame_num
      match kf? with
      | none => none
      | some keyframe =>
        let (tracker', delta) := st.tracker.update ok new_bbox
        match keyframe.x, keyframe.y with
        | some kx, some ky =>
          let new_position : ℤ × ℤ := (kx + delta.x, ky + delta.y)
          match TextAnimationKeyframe.init new_frame_num (some new_position) none with
          | none => none
          | some new_keyframe =>
            some { keyframes := insert_keyframe st.keyframes new_keyframe
                   tracker := tracker'
                   current_frame_index := new_frame_num
                   sequence_length := st.sequence_length }
        | _, _ => none

/-! ## Statement-level predicates for the interpolation properties

These predicates only package the statement of the interpolation claim; they
are not part of the embedding. `rf` stands for the field of the interpolation
result selected by the same accessor `f`. -/

/-- At an index carrying an explicit keyframe, the result returns exactly that
keyframe's stored field. -/
def FieldExact (f : TextAnimationKeyframe → Option ℤ)
    (kfs : List TextAnimationKeyframe) (i : ℤ) (rf : Option ℤ) : Prop :=
  ∀ k ∈ kfs, k.frame_ind = i → ∀ v, f k = some v → rf = some v

/-- Outside the known range of the field, the result is the boundary value of
the field, unchanged (flat extrapolation): below (at or before) the minimal
field-bearing keyframe, and above (at or after) the maximal one. -/
def FieldClamp (f : TextAnimationKeyframe → Option ℤ)
    (kfs : List TextAnimationKeyframe) (i : ℤ) (rf : Option ℤ) : Prop :=
  (∀ k ∈ kfs, ∀ v, f k = some v →
     (∀ k' ∈ kfs, f k' ≠ none → k.frame_ind ≤ k'.frame_ind) →
     i ≤ k.frame_ind → rf = some v) ∧
  (∀ k ∈ kfs, ∀ v, f k = some v →
     (∀ k' ∈ kfs, f k' ≠ none → k'.frame_ind ≤ k.frame_ind) →
     k.frame_ind ≤ i → rf = some v)

/-- Strictly between two field-bearing keyframes with no field-bearing
keyframe in between, the result is the linear interpolant converted to an
integer by Python's `int` (truncation toward zero). -/
def FieldLinear (f : TextAnimationKeyframe → Option ℤ)
    (kfs : List TextAnimationKeyframe) (i : ℤ) (rf : Option ℤ) : Prop :=
  ∀ ka ∈ kfs, ∀ kb ∈ kfs, ∀ va vb, f ka = some va → f kb = some vb →
    ka.frame_ind < i → i < kb.frame_ind →
    (∀ k' ∈ kfs, f k' ≠ none →
       ¬(ka.frame_ind < k'.frame_ind ∧ k'.frame_ind < kb.frame_ind)) →
    rf = some (pyInt ((va : ℚ) + ((vb : ℚ) - (va : ℚ)) *
      ((i : ℚ) - (ka.frame_ind : ℚ)) / ((kb.frame_ind : ℚ) - (ka.frame_ind : ℚ))))

/-! # Theorems -/

/-! ## Spiral traversal (claims C1 and C10) -/

theorem roundrobin_eq_interleaveSpec_aux :
    ∀ (n : ℕ) (xs ys : List ℕ), xs.length + ys.length ≤ n →
      roundrobin xs ys = interleaveSpec xs ys := by
  intro n
  induction n with
  | zero =>
    intro xs ys h
    have hx : xs = [] := by cases xs <;> simp_all
    have hy : ys = [] := by cases ys <;> simp_all
    subst hx; subst hy
    simp [roundrobin, interleaveSpec]
  | succ n ih =>
    intro xs ys h
    match xs, ys with
    | [], ys => simp [roundrobin, interleaveSpec]
    | x :: xs, [] => simp [roundrobin, interleaveSpec]
    | x :: xs, y :: ys =>
      rw [roundrobin, roundrobin, interleaveSpec]
      have : xs.length + ys.length ≤ n := by
        simp only [List.length_cons] at h; omega
      rw [ih xs ys this]

theorem roundrobin_eq_interleaveSpec (xs ys : List ℕ) :
    roundrobin xs ys = interleaveSpec xs ys :=
  roundrobin_eq_interleaveSpec_aux (xs.length + ys.length) xs ys le_rfl

theorem roundrobin_perm_append_aux :
    ∀ (n : ℕ) (xs ys : List ℕ), xs.length + ys.length ≤ n →
      (roundrobin xs ys).Perm (xs ++ ys) := by
  intro n
  induction n with
  | zero =>
    intro xs ys h
    have hx : xs = [] := by cases xs <;> simp_all
    have hy : ys = [] := by cases ys <;> simp_all
    subst hx; subst hy
    simp [roundrobin]
  | succ n ih =>
    intro xs ys h
    match xs, ys with
    | [], ys => rw [roundrobin]; simp
    | x :: xs, ys =>
      rw [roundrobin]
      have hlen : ys.length + xs.length ≤ n := by
        simp only [List.length_cons] at h; omega
      exact ((ih ys xs hlen).cons x).trans ((List.perm_append_comm).cons x)

theorem roundrobin_perm_append (xs ys : List ℕ) :
    (roundrobin xs ys).Perm (xs ++ ys) :=
  roundrobin_perm_append_aux (xs.length + ys.length) xs ys le_rfl

/-- C1 counterexample: over a sequence of length 10 with active index 4, the
spiral pass visits `4,3,5,2,6,1,7,0,8,9` — the claimed order
`4,5,3,6,2,7,1,8,0,9` (forward step first after the active frame) is not the
one produced. -/
theorem spiral_4_10_order_counterexample :
    spiral 4 10 = [4, 3, 5, 2, 6, 1, 7, 0, 8, 9] ∧
    spiral 4 10 ≠ [4, 5, 3, 6, 2, 7, 1, 8, 0, 9] := by
  have h : spiral 4 10 = [4, 3, 5, 2, 6, 1, 7, 0, 8, 9] := by
    rw [spiral, roundrobin_eq_interleaveSpec]
    decide
  exact ⟨h, by rw [h]; decide⟩

/-- C1 (amended): for every start index `s` and length `L`, the pass renders
frame `s` first and then strictly alternates one step from the backward range
`[s-1, -1)` and one step from the forward range `(s, L)` — the round-robin
interleave takes its first element from the forward range
`[s, L)` and its second from the backward range — draining the remaining
range alone once the other is exhausted; for a sequence of length 10 and
active index 4 the visit order is `4,3,5,2,6,1,7,0,8,9`. -/
theorem spiral_interleaves_backward_first :
    (∀ s L : ℕ, render_spiral_order L s =
       interleaveSpec (List.range' s (L - s)) (List.range s).reverse) ∧
    render_spiral_order 10 4 = [4, 3, 5, 2, 6, 1, 7, 0, 8, 9] := by
  constructor
  · intro s L
    exact roundrobin_eq_interleaveSpec _ _
  · rw [render_spiral_order, spiral, roundrobin_eq_interleaveSpec]
    decide

/-- C10: for every length `L` and start index `s < L`, the spiral traversal
visits each frame index in `[0, L)` exactly once: it is a permutation of
`range L`, so one `render_spiral` pass renders every frame exactly once. -/
theorem spiral_is_permutation (L s : ℕ) (h : s < L) :
    (spiral s L).Perm (List.range L) := by
  have h1 : (spiral s L).Perm
      (List.range' s (L - s) ++ (List.range s).reverse) :=
    roundrobin_perm_append _ _
  have h2 : (List.range' s (L - s) ++ (List.range s).reverse).Perm
      (List.range' s (L - s) ++ List.range s) :=
    (List.reverse_perm _).append_left _
  have h3 : (List.range' s (L - s) ++ List.range s).Perm
      (List.range s ++ List.range' s (L - s)) :=
    List.perm_append_comm
  have h4 : List.range s ++ List.range' s (L - s) = List.range L := by
    rw [List.range_eq_range', List.range_eq_range']
    have := List.range'_append 0 s (L - s) 1
    simp only [Nat.zero_add, Nat.one_mul] at this
    rw [this]
    congr 1
    omega
  exact ((h1.trans h2).trans h3).trans (h4 ▸ List.Perm.refl _)

/-- C10 witness: the concrete instance `s = 4`, `L = 10`. -/
theorem spiral_is_permutation_witness :
    (4 < 10) ∧ (spiral 4 10).Perm (List.range 10) :=
  ⟨by decide, spiral_is_permutation 10 4 (by decide)⟩

/-! ## Keyframe construction and merge (claim C2) -/

/-- C2 is contradicted by the code: the first keyframe of the scenario,
`(5, position=(10,10), size=None)`, is constructible, but the size-only
keyframe `(5, position=None, size=30)` cannot even be constructed — the
constructor's `self.x, self.y = position` raises a `TypeError` on
`position=None` — so the claimed merge to `(5, (10,10), 30)` never happens.
The constructor's own `Optional` type hint, the `None` guards in
`update_keyframe`, and the `initial_position=None` call path in
`TextAnimationTemplate.__init__` all show partial keyframes are intended. -/
theorem size_only_keyframe_construction_fails :
    TextAnimationKeyframe.init 5 (some (10, 10)) none
        = some ⟨5, some 10, some 10, none⟩ ∧
    mergeScenarioSecondKeyframe = none := by
  exact ⟨rfl, rfl⟩

/-! ## Loop-count encoding of `GifSequence.save` (claim C8) -/

/-- C8: `save(path, is_loop)` hands `imageio.mimsave` a loop-count that is the
logical negation of `is_loop` under the "repeat N times, 0 = forever"
convention: 0 (loop forever) when `is_loop` is true and 1 when it is false. -/
theorem save_loop_count_encoding :
    ∀ (s : GifSequence) (is_loop : Bool),
      (s.save is_loop).loop = (if is_loop then 0 else 1) ∧
      ((s.save is_loop).loop = 0 ↔ is_loop = true) := by
  intro s is_loop
  cases is_loop <;> simp [GifSequence.save, pyIntOfBool]


/-! ## Sequence slicing and concatenation (claim C5) -/

theorem map_getD_range' {α : Type} (l : List α) (d : α) (a m : ℕ)
    (h : a + m ≤ l.length) :
    (List.range' a m).map (fun i => l.getD i d) = (l.drop a).take m := by
  apply List.ext_getElem
  · simp only [List.length_map, List.length_range', List.length_take,
      List.length_drop]
    omega
  · intro i h1 h2
    simp only [List.length_map, List.length_range'] at h1
    simp only [List.getElem_map, List.getElem_range', List.getElem_take,
      List.getElem_drop, Nat.one_mul]
    rw [List.getD_eq_getElem l d (by omega)]

theorem from_frames_of_ne_nil (frames : List GifFrame) (h : frames ≠ []) :
    GifSequence.from_frames frames
      = some ⟨frames.map (·._image), frames.map (·.duration)⟩ := by
  cases frames with
  | nil => exact absurd rfl h
  | cons f rest => rfl

/-- C5 counterexample: at the boundary splits `k = 0` and `k = length(s)` the
empty half makes the slice call `np.stack` on an empty list, which raises
`ValueError` — the program produces no sequence at all there, so the claimed
range `0 ≤ k ≤ length(s)` fails at both endpoints (shown on a concrete
three-frame sequence: `s[:0]` and `s[3:]` both crash). -/
theorem slice_concat_empty_half_counterexample :
    GifSequence.getItemSlice ⟨[[], [], []], [10, 20, 30]⟩ 0 0 = none ∧
    GifSequence.getItemSlice ⟨[[], [], []], [10, 20, 30]⟩ 3
      (GifSequence.length ⟨[[], [], []], [10, 20, 30]⟩) = none :=
  ⟨rfl, rfl⟩

/-- C5 (amended): for every well-formed sequence and every interior split
index `0 < k < length(s)` both halves are nonempty, so both slices succeed,
and concatenating them with `__add__` reproduces the original sequence: the
frame arrays and duration arrays agree entry by entry. Both `__getitem__` on a
slice and `__add__` build their result out of fresh arrays
(`np.stack` / `np.concatenate`), leaving the operand sequences untouched. At
`k = 0` and `k = length(s)` the empty half raises `ValueError` inside
`np.stack`, so those splits yield no sequence. -/
theorem slice_concat_roundtrip (s : GifSequence) (k : ℕ)
    (hk0 : 0 < k) (hk : k < s.length) (hwf : s.WF) :
    ∃ s1 s2, s.getItemSlice 0 k = some s1 ∧ s.getItemSlice k s.length = some s2 ∧
      s1.add s2 = s := by
  obtain ⟨fr, du⟩ := s
  simp only [GifSequence.WF, GifSequence.length] at hk hwf
  have h1ne : (pySliceIndices 0 k (GifSequence.mk fr du).length).map
      (GifSequence.mk fr du).getItemInt ≠ [] := by
    apply List.length_pos.mp
    rw [List.length_map]
    simp only [pySliceIndices, List.length_range', GifSequence.length]
    omega
  have h2ne : (pySliceIndices k (GifSequence.mk fr du).length
      (GifSequence.mk fr du).length).map (GifSequence.mk fr du).getItemInt ≠ [] := by
    apply List.length_pos.mp
    rw [List.length_map]
    simp only [pySliceIndices, List.length_range', GifSequence.length]
    omega
  have hs1 := from_frames_of_ne_nil _ h1ne
  have hs2 := from_frames_of_ne_nil _ h2ne
  refine ⟨_, _, hs1, hs2, ?_⟩
  · simp only [pySliceIndices, GifSequence.length, GifSequence.getItemInt,
      GifFrame.from_array, GifSequence.add, GifSequence.mk.injEq]
    rw [List.map_map, List.map_map, List.map_map, List.map_map]
    have hmin0 : min 0 fr.length = 0 := by omega
    have hmink : min k fr.length = k := by omega
    have hminl : min fr.length fr.length = fr.length := by omega
    rw [hmin0, hmink, hminl]
    constructor
    · have h1 : (List.range' 0 (k - 0)).map (fun i => fr.getD i []) =
          (fr.drop 0).take k := by
        have := map_getD_range' fr [] 0 (k - 0) (by omega)
        rw [this]
        congr 1
      have h2 : (List.range' k (fr.length - k)).map (fun i => fr.getD i []) =
          (fr.drop k).take (fr.length - k) := map_getD_range' fr [] k _ (by omega)
      have h3 : (fr.drop k).take (fr.length - k) = fr.drop k := by
        apply List.take_of_length_le
        simp
      calc (List.range' 0 (k - 0)).map (fun i => fr.getD i [])
            ++ (List.range' k (fr.length - k)).map (fun i => fr.getD i [])
          = (fr.drop 0).take k ++ fr.drop k := by rw [h1, h2, h3]
        _ = fr := by rw [List.drop_zero, List.take_append_drop]
    · have h1 : (List.range' 0 (k - 0)).map (fun i => du.getD i 0) =
          (du.drop 0).take k := by
        have := map_getD_range' du 0 0 (k - 0) (by omega)
        rw [this]
        congr 1
      have h2 : (List.range' k (fr.length - k)).map (fun i => du.getD i 0) =
          (du.drop k).take (fr.length - k) := map_getD_range' du 0 k _ (by omega)
      have h3 : (du.drop k).take (fr.length - k) = du.drop k := by
        apply List.take_of_length_le
        simp
        omega
      calc (List.range' 0 (k - 0)).map (fun i => du.getD i 0)
            ++ (List.range' k (fr.length - k)).map (fun i => du.getD i 0)
          = (du.drop 0).take k ++ du.drop k := by rw [h1, h2, h3]
        _ = du := by rw [List.drop_zero, List.take_append_drop]

/-- C5 witness: a concrete three-frame sequence split at the interior index
`k = 1`. -/
theorem slice_concat_roundtrip_witness :
    (0 < 1 ∧ 1 < GifSequence.length ⟨[[], [], []], [10, 20, 30]⟩ ∧
      GifSequence.WF ⟨[[], [], []], [10, 20, 30]⟩) ∧
    ∃ s1 s2,
      GifSequence.getItemSlice ⟨[[], [], []], [10, 20, 30]⟩ 0 1 = some s1 ∧
      GifSequence.getItemSlice ⟨[[], [], []], [10, 20, 30]⟩ 1
        (GifSequence.length ⟨[[], [], []], [10, 20, 30]⟩) = some s2 ∧
      GifSequence.add s1 s2 = ⟨[[], [], []], [10, 20, 30]⟩ :=
  ⟨⟨by decide, by decide, by decide⟩,
    slice_concat_roundtrip ⟨[[], [], []], [10, 20, 30]⟩ 1
      (by decide) (by decide) (by decide)⟩

/-! ## Layer Set operations (claims C4 and C9) -/

theorem dictInsert_ne_nil (layers : List TextAnimationTemplate)
    (t : TextAnimationTemplate) : dictInsert layers t ≠ [] := by
  cases layers with
  | nil => simp [dictInsert]
  | cons t' rest =>
    rw [dictInsert]
    split <;> simp

theorem mem_ids_dictInsert (layers : List TextAnimationTemplate)
    (t : TextAnimationTemplate) (x : String)
    (h : x ∈ (dictInsert layers t).map (·.id)) :
    x ∈ layers.map (·.id) ∨ x = t.id := by
  induction layers with
  | nil => simp [dictInsert] at h; simp [h]
  | cons t' rest ih =>
    rw [dictInsert] at h
    by_cases heq : t'.id = t.id
    · rw [if_pos heq] at h
      simp only [List.map_cons, List.mem_cons] at h ⊢
      rcases h with h | h
      · right; exact h
      · left; right; exact h
    · rw [if_neg heq] at h
      simp only [List.map_cons, List.mem_cons] at h ⊢
      rcases h with h | h
      · left; left; exact h
      · rcases ih h with h' | h'
        · left; right; exact h'
        · right; exact h'

theorem dictInsert_ids_nodup (layers : List TextAnimationTemplate)
    (t : TextAnimationTemplate) (h : (layers.map (·.id)).Nodup) :
    ((dictInsert layers t).map (·.id)).Nodup := by
  induction layers with
  | nil => simp [dictInsert]
  | cons t' rest ih =>
    simp only [List.map_cons, List.nodup_cons] at h
    rw [dictInsert]
    by_cases heq : t'.id = t.id
    · rw [if_pos heq]
      simp only [List.map_cons, List.nodup_cons]
      exact ⟨heq ▸ h.1, h.2⟩
    · rw [if_neg heq]
      simp only [List.map_cons, List.nodup_cons]
      refine ⟨fun hmem => ?_, ih h.2⟩
      rcases mem_ids_dictInsert rest t t'.id hmem with h' | h'
      · exact h.1 h'
      · exact heq h'

theorem dictInsert_of_fresh (layers : List TextAnimationTemplate)
    (t : TextAnimationTemplate) (h : t.id ∉ layers.map (·.id)) :
    dictInsert layers t = layers ++ [t] := by
  induction layers with
  | nil => simp [dictInsert]
  | cons t' rest ih =>
    simp only [List.map_cons, List.mem_cons] at h
    push_neg at h
    rw [dictInsert, if_neg (fun he => h.1 he.symm), ih h.2]
    simp

theorem remove_template_ne_nil (layers : List TextAnimationTemplate)
    (sel : String) (hnd : (layers.map (·.id)).Nodup) (hlen : 2 ≤ layers.length) :
    remove_template layers sel ≠ [] := by
  match layers, hlen with
  | t1 :: t2 :: rest, _ =>
    simp only [List.map_cons, List.nodup_cons, List.mem_cons] at hnd
    rw [remove_template]
    by_cases h1 : t1.id = sel
    · have h2 : ¬ t2.id = sel := fun h2 => by
        push_neg at hnd
        exact hnd.1.1 (h1 ▸ h2.symm ▸ rfl)
      intro hcon
      have : t2 ∈ List.filter (fun t => decide ¬ t.id = sel) (t1 :: t2 :: rest) := by
        simp [List.mem_filter, h2]
      rw [hcon] at this
      exact absurd this (List.not_mem_nil _)
    · intro hcon
      have : t1 ∈ List.filter (fun t => decide ¬ t.id = sel) (t1 :: t2 :: rest) := by
        simp [List.mem_filter, h1]
      rw [hcon] at this
      exact absurd this (List.not_mem_nil _)

theorem remove_template_ids_nodup (layers : List TextAnimationTemplate)
    (sel : String) (hnd : (layers.map (·.id)).Nodup) :
    ((remove_template layers sel).map (·.id)).Nodup := by
  have hsub : (remove_template layers sel).Sublist layers := List.filter_sublist _
  exact hnd.sublist (hsub.map _)

theorem editor_state_invariant (s : EditorState) (h : ReachableEditorState s) :
    s.layers ≠ [] ∧ (s.layers.map (·.id)).Nodup := by
  induction h with
  | init t => simp
  | add _ ih =>
    refine ⟨dictInsert_ne_nil _ _, dictInsert_ids_nodup _ _ ih.2⟩
  | delete _ ih =>
    rename_i s' _
    rw [on_click_delete_current_text_template]
    by_cases hlen : 1 < s'.layers.length
    · rw [if_pos hlen]
      exact ⟨remove_template_ne_nil _ _ ih.2 (by omega),
        remove_template_ids_nodup _ _ ih.2⟩
    · rw [if_neg hlen]
      exact ih
  | select _ _ _ ih =>
    simpa [change_selected_text_template] using ih

/-- C4: deleting the only remaining Text Layer is a no-op — for every editor
state holding exactly one layer the delete operation returns the state
unchanged (same count, same stored layer) — and in every state reachable
through the add / delete / select operations at least one layer exists. -/
theorem delete_last_layer_noop_and_invariant :
    (∀ s : EditorState, s.layers.length = 1 →
       on_click_delete_current_text_template s = s) ∧
    (∀ s : EditorState, ReachableEditorState s → 1 ≤ s.layers.length) := by
  constructor
  · intro s hlen
    rw [on_click_delete_current_text_template, if_neg (by omega)]
  · intro s h
    have := (editor_state_invariant s h).1
    cases hl : s.layers with
    | nil => exact absurd hl this
    | cons t rest => simp [hl]

/-- C4 witness: the initial single-layer state. -/
theorem delete_last_layer_noop_and_invariant_witness :
    on_click_delete_current_text_template
        ⟨[TextAnimationTemplate.mk0 "Text 1"], "Text 1"⟩
      = ⟨[TextAnimationTemplate.mk0 "Text 1"], "Text 1"⟩ ∧
    1 ≤ (EditorState.mk [TextAnimationTemplate.mk0 "Text 1"] "Text 1").layers.length :=
  ⟨delete_last_layer_noop_and_invariant.1 _ rfl,
   delete_last_layer_noop_and_invariant.2 _
     (ReachableEditorState.init (TextAnimationTemplate.mk0 "Text 1"))⟩

/-- C9 counterexample: start from the single layer `"Text 1"`, add twice
(creating `"Text 2"`, `"Text 3"`), select `"Text 2"` and delete it. The
reachable result holds `{"Text 1", "Text 3"}`, so the next add generates the
id `"Text 3"` — which is already present — and overwrites that layer: the
layer count stays 2 instead of increasing by one. -/
theorem add_layer_id_collision_counterexample :
    ReachableEditorState
      (on_click_delete_current_text_template
        (change_selected_text_template
          (on_click_add_text_template
            (on_click_add_text_template
              ⟨[TextAnimationTemplate.mk0 "Text 1"], "Text 1"⟩)) "Text 2")) ∧
    (on_click_add_text_template
      (on_click_delete_current_text_template
        (change_selected_text_template
          (on_click_add_text_template
            (on_click_add_text_template
              ⟨[TextAnimationTemplate.mk0 "Text 1"], "Text 1"⟩)) "Text 2"))).layers.length
      = (on_click_delete_current_text_template
          (change_selected_text_template
            (on_click_add_text_template
              (on_click_add_text_template
                ⟨[TextAnimationTemplate.mk0 "Text 1"], "Text 1"⟩)) "Text 2")).layers.length := by
  constructor
  · exact ReachableEditorState.delete
      (ReachableEditorState.select "Text 2" (by decide)
        (ReachableEditorState.add
          (ReachableEditorState.add
            (ReachableEditorState.init (TextAnimationTemplate.mk0 "Text 1")))))
  · decide

/-- C9 (amended): appending a new layer assigns it the deterministic
auto-generated id `"Text " + (count+1)`. Whenever that id is not already
present in the Layer Set — which holds in particular in every state built by
adds alone — the add appends the new layer, increases the layer count by
exactly one, overwrites no existing layer, and selects the new id. After
interleaved adds and removes the generated id can collide with a present id,
in which case the add overwrites that layer and the count is unchanged. -/
theorem add_layer_fresh_id_appends (s : EditorState)
    (h : ("Text " ++ Nat.repr (1 + s.layers.length)) ∉ s.layers.map (·.id)) :
    (on_click_add_text_template s).layers
        = s.layers ++
          [TextAnimationTemplate.mk0 ("Text " ++ Nat.repr (1 + s.layers.length))] ∧
    (on_click_add_text_template s).layers.length = s.layers.length + 1 ∧
    (on_click_add_text_template s).selected
        = "Text " ++ Nat.repr (1 + s.layers.length) := by
  have happ : (on_click_add_text_template s).layers
      = s.layers ++
        [TextAnimationTemplate.mk0 ("Text " ++ Nat.repr (1 + s.layers.length))] := by
    rw [on_click_add_text_template]
    exact dictInsert_of_fresh _ _ h
  refine ⟨happ, ?_, rfl⟩
  rw [happ]
  simp

/-- C9 witness: adding to the initial single-layer state appends `"Text 2"`. -/
theorem add_layer_fresh_id_appends_witness :
    ("Text " ++ Nat.repr (1 + (EditorState.mk [TextAnimationTemplate.mk0 "Text 1"] "Text 1").layers.length))
        ∉ (EditorState.mk [TextAnimationTemplate.mk0 "Text 1"] "Text 1").layers.map (·.id) ∧
    (on_click_add_text_template ⟨[TextAnimationTemplate.mk0 "Text 1"], "Text 1"⟩).layers
      = [TextAnimationTemplate.mk0 "Text 1", TextAnimationTemplate.mk0 "Text 2"] := by
  refine ⟨by decide, ?_⟩
  have h := (add_layer_fresh_id_appends
    ⟨[TextAnimationTemplate.mk0 "Text 1"], "Text 1"⟩ (by decide)).1
  rw [h]
  decide

/-! ## Serialization round trip (claim C6) -/

theorem insert_keyframe_append (kfs : List TextAnimationKeyframe)
    (k : TextAnimationKeyframe) (h : ∀ k' ∈ kfs, k'.frame_ind < k.frame_ind) :
    insert_keyframe kfs k = kfs ++ [k] := by
  induction kfs with
  | nil => rfl
  | cons k' rest ih =>
    rw [insert_keyframe, if_pos (h k' (List.mem_cons_self _ _)),
      ih fun a ha => h a (List.mem_cons_of_mem _ ha)]
    rfl

theorem foldl_insert_keyframe_sorted :
    ∀ (l acc : List TextAnimationKeyframe),
      (∀ a ∈ acc, ∀ b ∈ l, a.frame_ind < b.frame_ind) → SortedKeyframes l →
      l.foldl insert_keyframe acc = acc ++ l := by
  intro l
  induction l with
  | nil => intro acc _ _; simp
  | cons k rest ih =>
    intro acc hacc hs
    rw [List.foldl_cons,
      insert_keyframe_append acc k fun a ha => hacc a ha k (List.mem_cons_self _ _)]
    rw [ih (acc ++ [k]) ?hacc (List.Pairwise.sublist (List.sublist_cons_self _ _) hs)]
    · simp
    case hacc =>
      intro a ha b hb
      rcases List.mem_append.mp ha with ha' | ha'
      · exact hacc a ha' b (List.mem_cons_of_mem _ hb)
      · have : a = k := by simpa using ha'
        subst this
        exact (List.pairwise_cons.mp hs).1 b hb

theorem keyframe_deserialize_serialize (k : TextAnimationKeyframe) :
    TextAnimationKeyframe.deserialize k.serialize = k := rfl

theorem deserializeCollection_serializeCollection
    (kfs : List TextAnimationKeyframe) (hs : SortedKeyframes kfs) :
    deserializeCollection (serializeCollection kfs) = kfs := by
  rw [deserializeCollection, serializeCollection, List.foldl_map]
  have : (fun (acc : List TextAnimationKeyframe) (k : TextAnimationKeyframe) =>
      insert_keyframe acc (TextAnimationKeyframe.deserialize k.serialize))
      = insert_keyframe := by
    funext acc k
    rw [keyframe_deserialize_serialize]
  rw [this]
  have := foldl_insert_keyframe_sorted kfs [] (by simp) hs
  simpa using this

theorem foldl_dictInsert_fresh :
    ∀ (l acc : List TextAnimationTemplate),
      (∀ t ∈ l, t.id ∉ acc.map (·.id)) → (l.map (·.id)).Nodup →
      l.foldl dictInsert acc = acc ++ l := by
  intro l
  induction l with
  | nil => intro acc _ _; simp
  | cons t rest ih =>
    intro acc hfresh hnd
    simp only [List.map_cons, List.nodup_cons] at hnd
    rw [List.foldl_cons, dictInsert_of_fresh acc t (hfresh t (List.mem_cons_self _ _))]
    rw [ih (acc ++ [t]) ?hfresh hnd.2]
    · simp
    case hfresh =>
      intro t' ht' hmem
      simp only [List.map_append, List.map_cons, List.map_nil, List.mem_append,
        List.mem_cons, List.not_mem_nil, or_false] at hmem
      rcases hmem with hmem | hmem
      · exact hfresh t' (List.mem_cons_of_mem _ ht') hmem
      · exact hnd.1 (hmem ▸ List.mem_map_of_mem (·.id) ht')

/-- C6: serialize→deserialize of a Text Layer reproduces its keyframe
collection exactly (same indices, positions, sizes, in the same order) and
all its style fields (font reference, text color, background color, stroke
width, stroke color); only the unserialized default render content
`text_value` is reset to the layer id. For a full Layer Set with distinct
layer ids, the round trip reproduces the layer list in order, layer by
layer. -/
theorem serialize_deserialize_roundtrip :
    (∀ t : TextAnimationTemplate, SortedKeyframes t.keyframes →
       TextAnimationTemplate.deserialize t.serialize = { t with text_value := t.id }) ∧
    (∀ layers : List TextAnimationTemplate,
       (layers.map (·.id)).Nodup → (∀ t ∈ layers, SortedKeyframes t.keyframes) →
       MemeAnimationTemplate.deserialize (MemeAnimationTemplate.serialize layers)
         = layers.map fun t => { t with text_value := t.id }) := by
  have hsingle : ∀ t : TextAnimationTemplate, SortedKeyframes t.keyframes →
      TextAnimationTemplate.deserialize t.serialize = { t with text_value := t.id } := by
    intro t hs
    obtain ⟨tid, tkfs, ttv, tfp, ttc, tbg, tsw, tsc⟩ := t
    simp only [TextAnimationTemplate.deserialize, TextAnimationTemplate.serialize,
      TextAnimationTemplate.mk0]
    simp only at hs
    rw [deserializeCollection_serializeCollection tkfs hs]
  refine ⟨hsingle, ?_⟩
  intro layers hnd hall
  rw [MemeAnimationTemplate.deserialize, MemeAnimationTemplate.serialize,
    List.map_map, MemeAnimationTemplate.ofList]
  have hmap : layers.map
        (TextAnimationTemplate.deserialize ∘ TextAnimationTemplate.serialize)
      = layers.map fun t => { t with text_value := t.id } := by
    apply List.map_congr_left
    intro t ht
    exact hsingle t (hall t ht)
  rw [hmap]
  have hids : ((layers.map fun t : TextAnimationTemplate =>
      { t with text_value := t.id }).map (·.id)).Nodup := by
    rw [List.map_map]
    exact hnd
  have := foldl_dictInsert_fresh
    (layers.map fun t : TextAnimationTemplate => { t with text_value := t.id }) []
    (by simp) hids
  simpa using this

/-- C6 witness: a concrete two-layer set, the first layer carrying two
keyframes and custom styling. -/
theorem serialize_deserialize_roundtrip_witness :
    SortedKeyframes [⟨2, some 0, some 0, some 20⟩, ⟨8, some 50, some 60, none⟩] ∧
    TextAnimationTemplate.deserialize
        (TextAnimationTemplate.serialize
          ⟨"Title", [⟨2, some 0, some 0, some 20⟩, ⟨8, some 50, some 60, none⟩],
            "Title", "Arial.ttf", "#ABC", some "#123", 3, "#DEF"⟩)
      = ⟨"Title", [⟨2, some 0, some 0, some 20⟩, ⟨8, some 50, some 60, none⟩],
          "Title", "Arial.ttf", "#ABC", some "#123", 3, "#DEF"⟩ := by
  refine ⟨by decide, ?_⟩
  exact serialize_deserialize_roundtrip.1
    ⟨"Title", [⟨2, some 0, some 0, some 20⟩, ⟨8, some 50, some 60, none⟩],
      "Title", "Arial.ttf", "#ABC", some "#123", 3, "#DEF"⟩ (by decide)

/-! ## Tracking failure safety (claim C7) -/

theorem insert_keyframe_mem_of_ne (kfs : List TextAnimationKeyframe)
    (knew k : TextAnimationKeyframe) (hk : k ∈ kfs)
    (hne : k.frame_ind ≠ knew.frame_ind) : k ∈ insert_keyframe kfs knew := by
  induction kfs with
  | nil => cases hk
  | cons k' rest ih =>
    rw [insert_keyframe]
    rcases List.mem_cons.mp hk with hk' | hk'
    · subst hk'
      by_cases h1 : k.frame_ind < knew.frame_ind
      · rw [if_pos h1]; exact List.mem_cons_self _ _
      · rw [if_neg h1, if_neg (fun h => hne h.symm)]
        exact List.mem_cons_of_mem _ (List.mem_cons_self _ _)
    · by_cases h1 : k'.frame_ind < knew.frame_ind
      · rw [if_pos h1]; exact List.mem_cons_of_mem _ (ih hk')
      · by_cases h2 : knew.frame_ind = k'.frame_ind
        · rw [if_neg h1, if_pos h2]; exact List.mem_cons_of_mem _ hk'
        · rw [if_neg h1, if_neg h2]
          exact List.mem_cons_of_mem _ (List.mem_cons_of_mem _ hk')

/-- C7: when the underlying tracker update reports failure, `Tracker.update`
returns the zero delta, clears both region corners (so the tracker is
inactive, with the `failed` flag set — the Failed state); and a `track_frame`
step driven by such a failing update only ever inserts at the target frame
index `current + frame_diff`: every keyframe stored at any other frame index
— in particular every previously written keyframe at an earlier index — is
still present, unchanged, after the step. -/
theorem tracker_failure_step_safe :
    (∀ (t : Tracker) (new_bbox : ℤ × ℤ × ℤ × ℤ),
       (t.update false new_bbox).2 = ⟨0, 0⟩ ∧
       (t.update false new_bbox).1.failed = true ∧
       (t.update false new_bbox).1.active = false ∧
       (t.update false new_bbox).1.begin_ = ⟨0, 0⟩ ∧
       (t.update false new_bbox).1.end_ = ⟨0, 0⟩) ∧
    (∀ (st : TrackState) (frame_diff : ℤ) (new_bbox : ℤ × ℤ × ℤ × ℤ)
       (st' : TrackState), track_frame st frame_diff false new_bbox = some st' →
       ∀ k ∈ st.keyframes, k.frame_ind ≠ st.current_frame_index + frame_diff →
         k ∈ st'.keyframes) := by
  constructor
  · intro t new_bbox
    exact ⟨rfl, rfl, rfl, rfl, rfl⟩
  · intro st frame_diff new_bbox st' h k hk hne
    rw [track_frame] at h
    by_cases hact : st.tracker.active = false
    · rw [if_pos hact] at h
      cases h
      exact hk
    · rw [if_neg hact] at h
      by_cases hbound : st.current_frame_index + frame_diff < 0 ∨
          (st.sequence_length : ℤ) - 1 < st.current_frame_index + frame_diff
      · rw [if_pos hbound] at h
        cases h
        exact hk
      · rw [if_neg hbound] at h
        set kf? := if st.current_frame_index ∉ keyframes_frames_indices st.keyframes
          then interpolate st.keyframes st.current_frame_index
          else get_keyframe st.keyframes st.current_frame_index with hkf
        cases hkfv : kf? with
        | none => rw [hkfv] at h; cases h
        | some keyframe =>
          rw [hkfv] at h
          simp only at h
          cases hx : keyframe.x with
          | none =>
            rw [hx] at h
            cases hy : keyframe.y <;> rw [hy] at h <;> cases h
          | some kx =>
            rw [hx] at h
            cases hy : keyframe.y with
            | none => rw [hy] at h; cases h
            | some ky =>
              rw [hy] at h
              simp only [TextAnimationKeyframe.init, Option.some.injEq] at h
              subst h
              exact insert_keyframe_mem_of_ne _ _ _ hk hne

/-- C7 witness: a concrete active tracker and a one-keyframe collection; the
failing step keeps the old keyframe at frame 0 intact. -/
theorem tracker_failure_step_safe_witness :
    (Tracker.update ⟨⟨1, 1⟩, ⟨2, 2⟩, false⟩ false (0, 0, 0, 0)).2 = ⟨0, 0⟩ ∧
    track_frame ⟨[⟨0, some 1, some 2, none⟩], ⟨⟨1, 1⟩, ⟨2, 2⟩, false⟩, 0, 5⟩ 1 false
        (0, 0, 0, 0)
      = some ⟨[⟨0, some 1, some 2, none⟩, ⟨1, some 1, some 2, none⟩],
          ⟨⟨0, 0⟩, ⟨0, 0⟩, true⟩, 1, 5⟩ ∧
    (⟨0, some 1, some 2, none⟩ : TextAnimationKeyframe) ∈
      (TrackState.mk [⟨0, some 1, some 2, none⟩, ⟨1, some 1, some 2, none⟩]
        ⟨⟨0, 0⟩, ⟨0, 0⟩, true⟩ 1 5).keyframes := by
  refine ⟨(tracker_failure_step_safe.1 ⟨⟨1, 1⟩, ⟨2, 2⟩, false⟩ (0, 0, 0, 0)).1,
    by decide, ?_⟩
  exact tracker_failure_step_safe.2
    ⟨[⟨0, some 1, some 2, none⟩], ⟨⟨1, 1⟩, ⟨2, 2⟩, false⟩, 0, 5⟩ 1 (0, 0, 0, 0)
    ⟨[⟨0, some 1, some 2, none⟩, ⟨1, some 1, some 2, none⟩],
      ⟨⟨0, 0⟩, ⟨0, 0⟩, true⟩, 1, 5⟩
    (by decide) ⟨0, some 1, some 2, none⟩ (List.mem_cons_self _ _) (by decide)

/-! ## Interpolation (claim C3): `np.interp` lemmas -/

theorem pyInt_intCast (n : ℤ) : pyInt ((n : ℚ)) = n := by
  rw [pyInt, Rat.num_intCast, Rat.den_intCast]
  simp [Int.tdiv_one]

theorem npInterp_of_le_head (x : ℚ) (pts : List (ℚ × ℚ)) (h0 : ℚ × ℚ)
    (hh : pts.head? = some h0) (hx : x ≤ h0.1) : npInterp x pts = h0.2 := by
  cases pts with
  | nil => cases hh
  | cons p rest =>
    have hp : p = h0 := by simpa using hh
    subst hp
    cases rest with
    | nil => rw [npInterp]
    | cons q rest' => rw [npInterp, if_pos hx]

theorem npInterp_of_ge_all (x : ℚ) :
    ∀ (pts : List (ℚ × ℚ)),
      List.Pairwise (fun p q : ℚ × ℚ => p.1 < q.1) pts →
      (∀ p ∈ pts, p.1 ≤ x) → ∀ pl, pts.getLast? = some pl →
      npInterp x pts = pl.2 := by
  intro pts
  induction pts with
  | nil => intro _ _ pl hpl; cases hpl
  | cons p rest ih =>
    intro hinc hge pl hpl
    cases rest with
    | nil =>
      have hp : p = pl := by simpa using hpl
      subst hp
      rw [npInterp]
    | cons q rest' =>
      have hq : q.1 ≤ x := hge q (List.mem_cons_of_mem _ (List.mem_cons_self _ _))
      have hpq : p.1 < q.1 :=
        (List.pairwise_cons.mp hinc).1 q (List.mem_cons_self _ _)
      rw [npInterp, if_neg (by linarith), if_neg (by linarith)]
      exact ih (List.pairwise_cons.mp hinc).2
        (fun p' hp' => hge p' (List.mem_cons_of_mem _ hp')) pl
        (by rwa [List.getLast?_cons_cons] at hpl)

theorem npInterp_at_mem (x y : ℚ) :
    ∀ (pts : List (ℚ × ℚ)),
      List.Pairwise (fun p q : ℚ × ℚ => p.1 < q.1) pts →
      (x, y) ∈ pts → npInterp x pts = y := by
  intro pts
  induction pts with
  | nil => intro _ h; cases h
  | cons p rest ih =>
    intro hinc hm
    rcases List.mem_cons.mp hm with hm' | hm'
    · subst hm'
      cases rest with
      | nil => rw [npInterp]
      | cons q rest' => rw [npInterp, if_pos le_rfl]
    · have hpx : p.1 < x :=
        (List.pairwise_cons.mp hinc).1 (x, y) hm'
      cases rest with
      | nil => cases hm'
      | cons q rest' =>
        have hqx : q.1 ≤ x := by
          rcases List.mem_cons.mp hm' with h | h
          · rw [← h]
          · exact le_of_lt ((List.pairwise_cons.mp
              (List.pairwise_cons.mp hinc).2).1 (x, y) h)
        rw [npInterp, if_neg (by linarith), if_neg (by linarith)]
        exact ih (List.pairwise_cons.mp hinc).2 hm'

theorem npInterp_bracket (x : ℚ) :
    ∀ (pre : List (ℚ × ℚ)) (a b : ℚ × ℚ) (post : List (ℚ × ℚ)),
      List.Pairwise (fun p q : ℚ × ℚ => p.1 < q.1) (pre ++ a :: b :: post) →
      a.1 < x → x < b.1 →
      npInterp x (pre ++ a :: b :: post)
        = a.2 + (b.2 - a.2) * (x - a.1) / (b.1 - a.1) := by
  intro pre
  induction pre with
  | nil =>
    intro a b post hinc hax hxb
    simp only [List.nil_append]
    rw [npInterp, if_neg (by linarith), if_pos hxb]
  | cons p pre' ih =>
    intro a b post hinc hax hxb
    have hpa : p.1 < a.1 := by
      refine (List.pairwise_cons.mp hinc).1 a ?_
      simp
    have hinc' := (List.pairwise_cons.mp hinc).2
    cases hpre : pre' with
    | nil =>
      subst hpre
      simp only [List.cons_append, List.nil_append] at *
      rw [npInterp, if_neg (by linarith), if_neg (by linarith)]
      rw [npInterp, if_neg (by linarith), if_pos hxb]
    | cons p2 pre'' =>
      subst hpre
      have hp2a : p2.1 < a.1 := by
        refine (List.pairwise_cons.mp hinc').1 a ?_
        simp
      simp only [List.cons_append] at *
      rw [npInterp, if_neg (by linarith), if_neg (by linarith)]
      exact ih a b post hinc' hax hxb

/-! ## Interpolation (claim C3): sample-list structure lemmas -/

theorem head_of_min {l : List (ℚ × ℚ)} {p : ℚ × ℚ}
    (hinc : List.Pairwise (fun p q : ℚ × ℚ => p.1 < q.1) l)
    (hp : p ∈ l) (hmin : ∀ q ∈ l, p.1 ≤ q.1) : l.head? = some p := by
  cases l with
  | nil => cases hp
  | cons p0 rest =>
    rcases List.mem_cons.mp hp with h | h
    · subst h
      rfl
    · have h1 : p0.1 < p.1 := (List.pairwise_cons.mp hinc).1 p h
      have h2 : p.1 ≤ p0.1 := hmin p0 (List.mem_cons_self _ _)
      linarith

theorem last_of_max :
    ∀ (l : List (ℚ × ℚ)) (p : ℚ × ℚ),
      List.Pairwise (fun p q : ℚ × ℚ => p.1 < q.1) l →
      p ∈ l → (∀ q ∈ l, q.1 ≤ p.1) → l.getLast? = some p := by
  intro l
  induction l with
  | nil => intro p _ hp; cases hp
  | cons p0 rest ih =>
    intro p hinc hp hmax
    cases rest with
    | nil =>
      have : p = p0 := by simpa using hp
      rw [this]
      rfl
    | cons q rest' =>
      rw [List.getLast?_cons_cons]
      rcases List.mem_cons.mp hp with h | h
      · subst h
        have h1 : p.1 < q.1 :=
          (List.pairwise_cons.mp hinc).1 q (List.mem_cons_self _ _)
        have h2 : q.1 ≤ p.1 :=
          hmax q (List.mem_cons_of_mem _ (List.mem_cons_self _ _))
        linarith
      · exact ih p (List.pairwise_cons.mp hinc).2 h
          fun q' hq' => hmax q' (List.mem_cons_of_mem _ hq')

theorem adjacent_of_no_mid :
    ∀ (l : List (ℚ × ℚ)) (a b : ℚ × ℚ),
      List.Pairwise (fun p q : ℚ × ℚ => p.1 < q.1) l →
      a ∈ l → b ∈ l → a.1 < b.1 →
      (∀ c ∈ l, ¬(a.1 < c.1 ∧ c.1 < b.1)) →
      ∃ pre post, l = pre ++ a :: b :: post := by
  intro l
  induction l with
  | nil => intro a b _ ha; cases ha
  | cons p rest ih =>
    intro a b hinc ha hb hab hmid
    rcases List.mem_cons.mp ha with ha' | ha'
    · subst ha'
      have hbr : b ∈ rest := by
        rcases List.mem_cons.mp hb with h | h
        · rw [h] at hab; linarith
        · exact h
      cases rest with
      | nil => cases hbr
      | cons q rest' =>
        have haq : a.1 < q.1 :=
          (List.pairwise_cons.mp hinc).1 q (List.mem_cons_self _ _)
        have hq : b = q := by
          rcases List.mem_cons.mp hbr with h | h
          · exact h
          · have hqb : q.1 < b.1 := (List.pairwise_cons.mp
              (List.pairwise_cons.mp hinc).2).1 b h
            exact absurd ⟨haq, hqb⟩
              (hmid q (List.mem_cons_of_mem _ (List.mem_cons_self _ _)))
        subst hq
        exact ⟨[], rest', rfl⟩
    · have hbr : b ∈ rest := by
        rcases List.mem_cons.mp hb with h | h
        · have hpa : p.1 < a.1 := (List.pairwise_cons.mp hinc).1 a ha'
          rw [h] at hab
          linarith
        · exact h
      obtain ⟨pre, post, heq⟩ := ih a b (List.pairwise_cons.mp hinc).2 ha' hbr hab
        fun c hc => hmid c (List.mem_cons_of_mem _ hc)
      exact ⟨p :: pre, post, by rw [heq]; rfl⟩

/-! ## Interpolation (claim C3): `fieldPts` lemmas -/

theorem mem_fieldPts (f : TextAnimationKeyframe → Option ℤ)
    (kfs : List TextAnimationKeyframe) (k : TextAnimationKeyframe) (v : ℤ)
    (hk : k ∈ kfs) (hv : f k = some v) :
    ((k.frame_ind : ℚ), (v : ℚ)) ∈ fieldPts f kfs :=
  List.mem_filterMap.mpr ⟨k, hk, by rw [hv]⟩

theorem mem_fieldPts_elim (f : TextAnimationKeyframe → Option ℤ)
    (kfs : List TextAnimationKeyframe) (p : ℚ × ℚ) (hp : p ∈ fieldPts f kfs) :
    ∃ k ∈ kfs, ∃ v : ℤ, f k = some v ∧ p = ((k.frame_ind : ℚ), (v : ℚ)) := by
  obtain ⟨k, hk, hkp⟩ := List.mem_filterMap.mp hp
  cases hv : f k with
  | none => rw [hv] at hkp; cases hkp
  | some v =>
    rw [hv] at hkp
    simp only [Option.some.injEq] at hkp
    exact ⟨k, hk, v, hv, hkp.symm⟩

theorem fieldPts_pairwise (f : TextAnimationKeyframe → Option ℤ)
    (kfs : List TextAnimationKeyframe) (hs : SortedKeyframes kfs) :
    List.Pairwise (fun p q : ℚ × ℚ => p.1 < q.1) (fieldPts f kfs) := by
  induction kfs with
  | nil => simp [fieldPts]
  | cons k rest ih =>
    have hhead := (List.pairwise_cons.mp hs).1
    have ih' := ih (List.pairwise_cons.mp hs).2
    rw [fieldPts, List.filterMap_cons]
    cases hfk : f k with
    | none => exact ih'
    | some v =>
      refine List.pairwise_cons.mpr ⟨?_, ih'⟩
      intro q hq
      obtain ⟨k', hk', v', hv', hq'⟩ := mem_fieldPts_elim f rest q hq
      rw [hq']
      show (k.frame_ind : ℚ) < (k'.frame_ind : ℚ)
      exact_mod_cast hhead k' hk'

theorem fieldPts_nil_iff (f : TextAnimationKeyframe → Option ℤ)
    (kfs : List TextAnimationKeyframe) :
    fieldPts f kfs = [] ↔ ∀ k ∈ kfs, f k = none := by
  rw [fieldPts, List.filterMap_eq_nil_iff]
  constructor
  · intro h k hk
    have := h k hk
    cases hfk : f k with
    | none => rfl
    | some v => rw [hfk] at this; cases this
  · intro h k hk
    rw [h k hk]

theorem fieldPts_length_xy (kfs : List TextAnimationKeyframe)
    (hwf : ∀ k ∈ kfs, k.x.isSome = k.y.isSome) :
    (fieldPts (·.x) kfs).length = (fieldPts (·.y) kfs).length := by
  induction kfs with
  | nil => rfl
  | cons k rest ih =>
    have hk := hwf k (List.mem_cons_self _ _)
    have ih' := ih fun k' hk' => hwf k' (List.mem_cons_of_mem _ hk')
    simp only [fieldPts, List.filterMap_cons] at ih' ⊢
    cases hx : k.x with
    | none =>
      cases hy : k.y with
      | none => simpa using ih'
      | some vy => rw [hx, hy] at hk; cases hk
    | some vx =>
      cases hy : k.y with
      | none => rw [hx, hy] at hk; cases hk
      | some vy => simpa using ih'

/-! ## Interpolation (claim C3): per-field specification -/

theorem field_spec (f : TextAnimationKeyframe → Option ℤ)
    (kfs : List TextAnimationKeyframe) (i : ℤ) (hs : SortedKeyframes kfs)
    (rf : Option ℤ)
    (hrf : fieldPts f kfs ≠ [] →
      rf = some (pyInt (npInterp (i : ℚ) (fieldPts f kfs)))) :
    FieldExact f kfs i rf ∧ FieldClamp f kfs i rf ∧ FieldLinear f kfs i rf := by
  have hinc := fieldPts_pairwise f kfs hs
  refine ⟨?_, ⟨?_, ?_⟩, ?_⟩
  · intro k hk hki v hv
    have hmem := mem_fieldPts f kfs k v hk hv
    have hne : fieldPts f kfs ≠ [] := by
      intro hnil
      rw [hnil] at hmem
      cases hmem
    rw [hrf hne]
    rw [hki] at hmem
    rw [npInterp_at_mem _ _ _ hinc hmem, pyInt_intCast]
  · intro k hk v hv hmin hle
    have hmem := mem_fieldPts f kfs k v hk hv
    have hne : fieldPts f kfs ≠ [] := by
      intro hnil
      rw [hnil] at hmem
      cases hmem
    rw [hrf hne]
    have hhead : (fieldPts f kfs).head? = some ((k.frame_ind : ℚ), (v : ℚ)) := by
      refine head_of_min hinc hmem ?_
      intro q hq
      obtain ⟨k', hk', v', hv', hq'⟩ := mem_fieldPts_elim f kfs q hq
      rw [hq']
      show (k.frame_ind : ℚ) ≤ (k'.frame_ind : ℚ)
      exact_mod_cast hmin k' hk' (by rw [hv']; exact Option.some_ne_none v')
    rw [npInterp_of_le_head _ _ _ hhead
      (by show (i : ℚ) ≤ (k.frame_ind : ℚ); exact_mod_cast hle), pyInt_intCast]
  · intro k hk v hv hmax hge
    have hmem := mem_fieldPts f kfs k v hk hv
    have hne : fieldPts f kfs ≠ [] := by
      intro hnil
      rw [hnil] at hmem
      cases hmem
    rw [hrf hne]
    have hlast : (fieldPts f kfs).getLast? = some ((k.frame_ind : ℚ), (v : ℚ)) := by
      refine last_of_max _ _ hinc hmem ?_
      intro q hq
      obtain ⟨k', hk', v', hv', hq'⟩ := mem_fieldPts_elim f kfs q hq
      rw [hq']
      show (k'.frame_ind : ℚ) ≤ (k.frame_ind : ℚ)
      exact_mod_cast hmax k' hk' (by rw [hv']; exact Option.some_ne_none v')
    have hall : ∀ p ∈ fieldPts f kfs, p.1 ≤ (i : ℚ) := by
      intro q hq
      obtain ⟨k', hk', v', hv', hq'⟩ := mem_fieldPts_elim f kfs q hq
      rw [hq']
      show (k'.frame_ind : ℚ) ≤ (i : ℚ)
      have h1 := hmax k' hk' (by rw [hv']; exact Option.some_ne_none v')
      exact_mod_cast le_trans h1 hge
    rw [npInterp_of_ge_all _ _ hinc hall _ hlast, pyInt_intCast]
  · intro ka hka kb hkb va vb hva hvb hai hib hbetween
    have hmema := mem_fieldPts f kfs ka va hka hva
    have hmemb := mem_fieldPts f kfs kb vb hkb hvb
    have hne : fieldPts f kfs ≠ [] := by
      intro hnil
      rw [hnil] at hmema
      cases hmema
    rw [hrf hne]
    have hab : ((ka.frame_ind : ℚ), (va : ℚ)).1 < ((kb.frame_ind : ℚ), (vb : ℚ)).1 := by
      show (ka.frame_ind : ℚ) < (kb.frame_ind : ℚ)
      exact_mod_cast lt_trans hai hib
    have hmid : ∀ c ∈ fieldPts f kfs,
        ¬(((ka.frame_ind : ℚ), (va : ℚ)).1 < c.1 ∧
          c.1 < ((kb.frame_ind : ℚ), (vb : ℚ)).1) := by
      intro c hc ⟨h1, h2⟩
      obtain ⟨k', hk', v', hv', hc'⟩ := mem_fieldPts_elim f kfs c hc
      rw [hc'] at h1 h2
      have h1' : (ka.frame_ind : ℚ) < (k'.frame_ind : ℚ) := h1
      have h2' : (k'.frame_ind : ℚ) < (kb.frame_ind : ℚ) := h2
      refine hbetween k' hk' (by rw [hv']; exact Option.some_ne_none v') ⟨?_, ?_⟩
      · exact_mod_cast h1'
      · exact_mod_cast h2'
    obtain ⟨pre, post, heq⟩ := adjacent_of_no_mid (fieldPts f kfs)
      ((ka.frame_ind : ℚ), (va : ℚ)) ((kb.frame_ind : ℚ), (vb : ℚ))
      hinc hmema hmemb hab hmid
    rw [heq] at hinc ⊢
    rw [npInterp_bracket _ _ _ _ _ hinc
      (by show (ka.frame_ind : ℚ) < (i : ℚ); exact_mod_cast hai)
      (by show (i : ℚ) < (kb.frame_ind : ℚ); exact_mod_cast hib)]

/-- C3: `interpolate(frame_ind)` computes each animatable field (x, y, size)
independently from only the keyframes defining that field. On every collection
reachable through `insert_keyframe` (sorted, and with x/y defined together, as
the constructor guarantees) the result exists and: each positional field
defaults to the margin point (20, 20) and the size to 50 when no keyframe
defines it; at an index holding an explicit keyframe each field stored by that
keyframe is returned exactly; at an index at-or-outside the known range of a
field the nearest boundary value is returned unchanged; and strictly between
two bracketing keyframes of a field the linear interpolant converted to an
integer (Python `int`, truncation toward zero) is returned. -/
theorem interpolate_fieldwise_spec (kfs : List TextAnimationKeyframe) (i : ℤ)
    (hs : SortedKeyframes kfs)
    (hwf : ∀ k ∈ kfs, k.x.isSome = k.y.isSome) :
    ∃ r, interpolate kfs i = some r
      ∧ r.frame_ind = i
      ∧ ((∀ k ∈ kfs, k.x = none) →
           r.x = some DEFAULT_POSITION.1 ∧ r.y = some DEFAULT_POSITION.2)
      ∧ ((∀ k ∈ kfs, k.text_size = none) → r.text_size = some DEFAULT_TEXT_SIZE)
      ∧ (FieldExact (·.x) kfs i r.x ∧ FieldClamp (·.x) kfs i r.x
          ∧ FieldLinear (·.x) kfs i r.x)
      ∧ (FieldExact (·.y) kfs i r.y ∧ FieldClamp (·.y) kfs i r.y
          ∧ FieldLinear (·.y) kfs i r.y)
      ∧ (FieldExact (·.text_size) kfs i r.text_size
          ∧ FieldClamp (·.text_size) kfs i r.text_size
          ∧ FieldLinear (·.text_size) kfs i r.text_size) := by
  have hlen := fieldPts_length_xy kfs hwf
  have hxy : (fieldPts (·.x) kfs = []) ↔ (fieldPts (·.y) kfs = []) := by
    constructor
    · intro h
      refine List.length_eq_zero.mp ?_
      rw [← hlen, h]
      rfl
    · intro h
      refine List.length_eq_zero.mp ?_
      rw [hlen, h]
      rfl
  refine ⟨⟨i,
    some (if fieldPts (·.x) kfs ≠ []
      then pyInt (npInterp (i : ℚ) (fieldPts (·.x) kfs)) else DEFAULT_POSITION.1),
    some (if fieldPts (·.x) kfs ≠ []
      then pyInt (npInterp (i : ℚ) (fieldPts (·.y) kfs)) else DEFAULT_POSITION.2),
    some (if fieldPts (·.text_size) kfs ≠ []
      then pyInt (npInterp (i : ℚ) (fieldPts (·.text_size) kfs))
      else DEFAULT_TEXT_SIZE)⟩,
    ?_, rfl, ?_, ?_, ?_, ?_, ?_⟩
  · simp only [interpolate]
    rw [if_pos hlen]
  · intro hxnone
    have hx : fieldPts (·.x) kfs = [] := (fieldPts_nil_iff _ _).mpr hxnone
    constructor
    · simp [hx]
    · simp [hx]
  · intro htsnone
    have hts : fieldPts (·.text_size) kfs = [] := (fieldPts_nil_iff _ _).mpr htsnone
    simp [hts]
  · refine field_spec (·.x) kfs i hs _ ?_
    intro hne
    rw [if_pos hne]
  · refine field_spec (·.y) kfs i hs _ ?_
    intro hne
    have hxne : fieldPts (·.x) kfs ≠ [] := fun hx => hne (hxy.mp hx)
    show some (if fieldPts (·.x) kfs ≠ []
      then pyInt (npInterp (i : ℚ) (fieldPts (·.y) kfs)) else DEFAULT_POSITION.2)
      = some (pyInt (npInterp (i : ℚ) (fieldPts (·.y) kfs)))
    rw [if_pos hxne]
  · refine field_spec (·.text_size) kfs i hs _ ?_
    intro hne
    rw [if_pos hne]

/-- C3 witness: the spec's concrete scenario — keyframes
`{2: (pos=(0,0), size=20)}` and `{8: (pos=(50,60), size=None)}`;
`interpolate(5)` yields position `(25, 30)` (linear, between the bracketing
keyframes) and size `20` (flat extrapolation of the only size-bearing
keyframe). -/
theorem interpolate_fieldwise_spec_witness :
    SortedKeyframes [⟨2, some 0, some 0, some 20⟩, ⟨8, some 50, some 60, none⟩] ∧
    (∀ k ∈ [(⟨2, some 0, some 0, some 20⟩ : TextAnimationKeyframe),
        ⟨8, some 50, some 60, none⟩], k.x.isSome = k.y.isSome) ∧
    ∃ r, interpolate [⟨2, some 0, some 0, some 20⟩,
        ⟨8, some 50, some 60, none⟩] 5 = some r ∧ r.frame_ind = 5 ∧
      r.x = some 25 ∧ r.y = some 30 ∧ r.text_size = some 20 := by
  refine ⟨by decide, by decide, ?_⟩
  obtain ⟨r, h1, h2, _hd1, _hd2, ⟨_, _, hxL⟩, ⟨_, _, hyL⟩, ⟨_, ⟨_, htsC⟩, _⟩⟩ :=
    interpolate_fieldwise_spec
      [⟨2, some 0, some 0, some 20⟩, ⟨8, some 50, some 60, none⟩] 5
      (by decide) (by decide)
  refine ⟨r, h1, h2, ?_, ?_, ?_⟩
  · have hx := hxL ⟨2, some 0, some 0, some 20⟩ (by simp)
      ⟨8, some 50, some 60, none⟩ (by simp) 0 50 rfl rfl
      (by decide) (by decide) (by decide)
    rw [hx]
    norm_num [pyInt]
  · have hy := hyL ⟨2, some 0, some 0, some 20⟩ (by simp)
      ⟨8, some 50, some 60, none⟩ (by simp) 0 60 rfl rfl
      (by decide) (by decide) (by decide)
    rw [hy]
    norm_num [pyInt]
  · exact htsC ⟨2, some 0, some 0, some 20⟩ (by simp) 20 rfl
      (by decide) (by decide)
